import Mathlib

/-!
# Verification of the jsonschema keyword validators

A shallow embedding of the schema-validation engine's representative keyword
validators (`not`, `pattern`, `minItems`), the regex-dialect translation and
the bounded LRU regex cache, together with proofs of the specified properties.

Sources embedded:
* `src/crates/jsonschema/src/keywords/not.rs`
* `src/crates/jsonschema/src/keywords/pattern.rs`
* `src/jsonschema/src/keywords/min_items.rs`
-/

namespace JsonSchema

/-! ## JSON value model (`serde_json::Value`) -/

/-- A JSON number (`serde_json::Number`): an unsigned integer (`u64`), a negative
integer (`i64`, used by the parser only for negative values), or a finite float,
modelled exactly as a rational. -/
inductive JNum where
  | posInt (n : Nat)
  | negInt (z : Int)
  | float (q : ℚ)
  deriving DecidableEq

/-- A parsed JSON document (`serde_json::Value`). Objects are association lists. -/
inductive Value where
  | null
  | bool (b : Bool)
  | num (n : JNum)
  | str (s : String)
  | arr (items : List Value)
  | obj (fields : List (String × Value))

/-- `Value::as_u64`: `Some` exactly for a number stored as an unsigned integer. -/
def Value.as_u64 : Value → Option Nat
  | .num (.posInt n) => some n
  | _ => none

/-- `Value::as_f64`: every finite number converts; non-numbers do not. -/
def Value.as_f64 : Value → Option ℚ
  | .num (.posInt n) => some (n : ℚ)
  | .num (.negInt z) => some (z : ℚ)
  | .num (.float q) => some q
  | _ => none

/-! ## The bounded LRU regex cache (`LruCache` in `pattern.rs`) -/

/-- A compiled matcher (`fancy_regex::Regex`), modelled abstractly by its matching
behaviour: `is_match` either returns a Boolean or fails internally
(`fancy_regex::Error`, e.g. the backtrack limit), the failure detail being a string. -/
abbrev Matcher : Type := String → Except String Bool

/-- Association-list lookup, the model of `AHashMap::get`. -/
def alookup (k : String) : List (String × Matcher) → Option Matcher
  | [] => none
  | (k', v) :: rest => if k' = k then some v else alookup k rest

/-- Association-list insert, the model of `AHashMap::insert`: replace the value of an
existing key in place, otherwise append; returns the map (the old value is recovered
by `alookup` before inserting). -/
def ainsert (k : String) (v : Matcher) : List (String × Matcher) → List (String × Matcher)
  | [] => [(k, v)]
  | (k', v') :: rest => if k' = k then (k, v) :: rest else (k', v') :: ainsert k v rest

/-- Association-list removal, the model of `AHashMap::remove`. -/
def aerase (k : String) : List (String × Matcher) → List (String × Matcher)
  | [] => []
  | (k', v') :: rest => if k' = k then rest else (k', v') :: aerase k rest

/-- The process-wide bounded regex cache: a map from original pattern strings to
compiled matchers plus a recency queue (front = least recently used). -/
structure LruCache where
  map : List (String × Matcher)
  queue : List String
  capacity : Nat

namespace LruCache

/-- `LruCache::new`. -/
def new (capacity : Nat) : LruCache := ⟨[], [], capacity⟩

/-- `LruCache::get`: on a hit, remove the key from its position in the queue and
push it to the back (most-recently-used). The source locates the position with
`iter().position(...).unwrap()`; `List.erase` removes that same first occurrence. -/
def get (c : LruCache) (key : String) : Option Matcher × LruCache :=
  match alookup key c.map with
  | some v => (some v, { c with queue := c.queue.erase key ++ [key] })
  | none => (none, c)

/-- The `unwrap` in `get` panics exactly when the key is in the map but not in the
queue (the `position` lookup fails). -/
def GetPanics (c : LruCache) (key : String) : Prop :=
  (alookup key c.map).isSome ∧ key ∉ c.queue

/-- The eviction prologue of `LruCache::insert`: if the map is at capacity and the
key is new, pop the least-recently-used key from the queue front and drop it from
the map. -/
def evictStep (c : LruCache) (key : String) : LruCache :=
  if c.capacity ≤ c.map.length && !(alookup key c.map).isSome then
    match c.queue with
    | [] => c
    | lru :: rest => { c with map := aerase lru c.map, queue := rest }
  else c

/-- `LruCache::insert`: evict if needed, insert the key, and if the key was already
present remove its old queue position; finally push the key to the back. -/
def insert (c : LruCache) (key : String) (v : Matcher) : LruCache :=
  let c1 := evictStep c key
  let old := alookup key c1.map
  let m2 := ainsert key v c1.map
  let q2 := if old.isSome then c1.queue.erase key else c1.queue
  { map := m2, queue := q2 ++ [key], capacity := c1.capacity }

/-- The `unwrap` in `insert` panics exactly when, after the eviction prologue, the
key is in the map but not in the queue. -/
def InsertPanics (c : LruCache) (key : String) : Prop :=
  (alookup key (evictStep c key).map).isSome ∧ key ∉ (evictStep c key).queue

/-- The cache invariant: the queue holds exactly the map's keys, each once, and the
map respects the capacity. -/
structure Inv (c : LruCache) : Prop where
  nodup_queue : c.queue.Nodup
  nodup_keys : (c.map.map Prod.fst).Nodup
  mem_iff : ∀ k, (alookup k c.map).isSome ↔ k ∈ c.queue
  size_le : c.map.length ≤ c.capacity

/-- States of the process-wide regex cache (`REGEX_CACHE`, capacity 10) reachable by
any sequence of `get` and `insert` operations from the empty cache. -/
inductive Reachable : LruCache → Prop
  | empty : Reachable (new 10)
  | get (c : LruCache) (k : String) : Reachable c → Reachable (c.get k).2
  | insert (c : LruCache) (k : String) (v : Matcher) : Reachable c → Reachable (c.insert k v)

end LruCache

/-! ### Concrete cache scenarios -/

/-- The i-th distinct pattern key used in the eviction scenarios. -/
def pat (i : Nat) : String := "p" ++ toString i

/-- A stand-in compiled matcher for cache scenarios (its behaviour is irrelevant:
the cache never inspects stored values). -/
def reOk : Matcher := fun _ => Except.ok true

/-- Insert the `n` distinct patterns `p1 .. pn`, in order, into a fresh capacity-10
cache with no intervening accesses. -/
def fillCache (n : Nat) : LruCache :=
  (List.range n).foldl (fun c i => c.insert (pat (i + 1)) reOk) (LruCache.new 10)

/-- Insert `p1 .. p10`, re-access `p_i`, then insert `p11`. -/
def promoteScenario (i : Nat) : LruCache :=
  (((fillCache 10).get (pat i)).2).insert (pat 11) reOk

/-! ## Regex dialect translation (`convert_regex` in `pattern.rs`) -/

/-- `replace_control_group`: the replacement for one matched `\cX` escape is the
character whose code is the uppercased letter's code minus 64. -/
def replace_control_group (l : Char) : Char :=
  Char.ofNat (l.toUpper.toNat - 64)

/-- The 52 ASCII letters matched by `[A-Za-z]` in `CONTROL_GROUPS_RE`. -/
def asciiLetters : List Char :=
  "ABCDEFGHIJKLMNOPQRSTUVWXYZabcdefghijklmnopqrstuvwxyz".data

/-- `CONTROL_GROUPS_RE.replace_all(pattern, replace_control_group)`: scan left to
right; each non-overlapping occurrence of `\c` followed by an ASCII letter
(`[A-Za-z]`) is replaced; on a failed match the scan resumes one character later
(a `c` can never start a match, so resuming at the letter position is the same). -/
def replaceControlGroups : List Char → List Char
  | [] => []
  | '\\' :: 'c' :: l :: rest =>
      if l ∈ asciiLetters then
        replace_control_group l :: replaceControlGroups rest
      else '\\' :: 'c' :: replaceControlGroups (l :: rest)
  | c :: rest => c :: replaceControlGroups rest

/-- The bracket expression substituted for `\\s` (specified whitespace code points). -/
def wsClass : List Char := "[ \t\n\r\u000B\u000C\u2003\uFEFF\u2029\u00A0]".data

/-- The bracket expression substituted for `\\S`. -/
def negWsClass : List Char := "[^ \t\n\r\u000B\u000C\u2003\uFEFF\u2029\u00A0]".data

/-- The character-class pass of `convert_regex`: iterate over the characters; after a
backslash, look at the next character to decide whether a shorthand class is
substituted; any other escaped character is passed through unchanged; a lone trailing
backslash is pushed as is (deliberately left malformed). -/
def convertClasses : List Char → List Char
  | [] => []
  | '\\' :: rest =>
    match rest with
    | [] => ['\\']
    | next :: rest' =>
      match next with
      | 'd' => "[0-9]".data ++ convertClasses rest'
      | 'D' => "[^0-9]".data ++ convertClasses rest'
      | 'w' => "[A-Za-z0-9_]".data ++ convertClasses rest'
      | 'W' => "[^A-Za-z0-9_]".data ++ convertClasses rest'
      | 's' => wsClass ++ convertClasses rest'
      | 'S' => negWsClass ++ convertClasses rest'
      | _ => '\\' :: next :: convertClasses rest'
  | c :: rest => c :: convertClasses rest

/-- The pure string-to-string part of `convert_regex`: the control-group pass
followed by the character-class pass. -/
def convertRegexStr (pattern : String) : String :=
  ⟨convertClasses (replaceControlGroups pattern.data)⟩

/-- `convert_regex` itself: translate, then hand the result to the matcher compiler
(`fancy_regex::Regex::new`), abstracted as `R`. -/
def convert_regex (R : String → Option Matcher) (pattern : String) : Option Matcher :=
  R (convertRegexStr pattern)

/-! ### The spec's token-level view of the class pass -/

/-- A token of the class pass, as the spec describes it: a backslash-escaped
character, an incomplete escape at end-of-string, or a plain character. -/
inductive RTok where
  | esc (c : Char)
  | dangling
  | plain (c : Char)
  deriving DecidableEq

/-- Decompose a pattern into escape tokens, as the spec's scan describes. -/
def rtokens : List Char → List RTok
  | [] => []
  | '\\' :: rest =>
    match rest with
    | [] => [.dangling]
    | next :: rest' => .esc next :: rtokens rest'
  | c :: rest => .plain c :: rtokens rest

/-- What the spec says each token translates to: the six shorthand classes become
their bracket expressions, every other escape is passed through unchanged, an
incomplete escape stays in place, plain characters are copied. -/
def renderRTok : RTok → List Char
  | .esc 'd' => "[0-9]".data
  | .esc 'D' => "[^0-9]".data
  | .esc 'w' => "[A-Za-z0-9_]".data
  | .esc 'W' => "[^A-Za-z0-9_]".data
  | .esc 's' => wsClass
  | .esc 'S' => negWsClass
  | .esc c => ['\\', c]
  | .dangling => ['\\']
  | .plain c => [c]

/-- Whether every character of the list is a backslash. -/
def allBS (cs : List Char) : Bool := cs.all (fun c => c = '\\')

/-- The length of the run of consecutive backslashes at the end of the list. A
pattern's final escape is incomplete (a "lone trailing backslash") exactly when
this run has odd length. -/
def trailingRun : List Char → Nat
  | [] => 0
  | '\\' :: rest => if allBS rest then rest.length + 1 else trailingRun rest
  | _ :: rest => trailingRun rest

/-- Modelled from the spec: the underlying matcher compiler
(`fancy_regex::Regex::new`, an external collaborator not under `src/`) "reports the
error" for a pattern whose escape is incomplete at end-of-string (an odd run of
trailing backslashes). Only that one guarantee is modelled; every other pattern is
accepted. -/
def fancyRegexNew (s : String) : Option Matcher :=
  if trailingRun s.data % 2 = 1 then none else some reOk

/-! ## Pointers, contexts and validation errors -/

/-- A structural path into a schema or instance document (`JsonPointer`). -/
abbrev JsonPointer := List String

/-- The compilation context: the schema pointer accumulated while descending. -/
structure Context where
  location : JsonPointer

/-- `Context::new_at_location`: descend one segment; the parent is unaffected. -/
def Context.new_at_location (ctx : Context) (seg : String) : Context :=
  ⟨ctx.location ++ [seg]⟩

/-- `Context::as_pointer_with`: the current pointer extended by one final segment. -/
def Context.as_pointer_with (ctx : Context) (seg : String) : JsonPointer :=
  ctx.location ++ [seg]

/-- `PrimitiveType` (only the kinds these keywords mention). -/
inductive PrimitiveType where
  | string
  | array
  | number
  | object
  deriving DecidableEq

/-- The validation-error kinds raised by the embedded keywords.
`nonPositiveInteger` stands for the error built by
`helpers::fail_on_non_positive_integer` (whose body is outside these sources). -/
inductive ErrKind where
  | not (original : Value)
  | pattern (original : String)
  | backtrackLimit (detail : String)
  | minItems (limit : Nat)
  | format (name : String)
  | singleTypeError (expected : PrimitiveType)
  | nonPositiveInteger

/-- A validation error: a kind plus the schema pointer, the instance pointer and the
offending instance value. -/
structure ValidationError where
  schema_path : JsonPointer
  instance_path : JsonPointer
  inst : Value
  kind : ErrKind

/-- Modelled from the spec: `helpers::fail_on_non_positive_integer` (not under
`src/`) builds the compile-time error naming the non-positive/non-integer problem,
at the keyword's pointer. -/
def fail_on_non_positive_integer (schema : Value) (schema_path : JsonPointer) :
    ValidationError :=
  { schema_path := schema_path, instance_path := [], inst := schema,
    kind := .nonPositiveInteger }

/-! ## The `not` keyword (`not.rs`) -/

/-- `Value::is_string`-style check used by the modelled `type` sub-schema. -/
def Value.isString : Value → Bool
  | .str _ => true
  | _ => false

/-- `Value::is_array`-style check. -/
def Value.isArray : Value → Bool
  | .arr _ => true
  | _ => false

/-- A compiled schema node, abstracted to what the `not` keyword consumes: its
boolean validation behaviour and its own location (`SchemaNode::location`). -/
structure SchemaNode where
  location : JsonPointer
  is_valid : Value → Bool

/-- The negation validator: the compiled operand plus the retained original operand
(kept only for error representation). -/
structure NotValidator where
  original : Value
  node : SchemaNode

/-- `NotValidator::compile`: descend to `"not"` and compile the operand there with
the recursive compiler (`compiler::compile`, outside these sources, passed in as
`compileFn`); a failure propagates; on success the original operand is retained. -/
def NotValidator.compile
    (compileFn : Context → Value → Except ValidationError SchemaNode)
    (ctx : Context) (schema : Value) : Except ValidationError NotValidator :=
  let ctx' := ctx.new_at_location "not"
  match compileFn ctx' schema with
  | .ok node => .ok { original := schema, node := node }
  | .error e => .error e

/-- `NotValidator::is_valid`: the logical negation of the nested node's verdict. -/
def NotValidator.is_valid (v : NotValidator) (inst : Value) : Bool :=
  !(v.node.is_valid inst)

/-- `NotValidator::validate`: succeed when `is_valid` holds, otherwise one error of
kind "not", carrying the nested node's own location, the caller-supplied instance
pointer, the instance and the retained original operand. -/
def NotValidator.validate (v : NotValidator) (inst : Value) (location : JsonPointer) :
    Except ValidationError Unit :=
  if v.is_valid inst then .ok ()
  else .error { schema_path := v.node.location, instance_path := location,
                inst := inst, kind := .not v.original }

/-- The operand of the concrete scenario's schema `{"not": {"type": "string"}}`. -/
def typeStringSchema : Value := .obj [("type", .str "string")]

/-- Modelled from the spec: the recursive compiler (`compiler::compile`, outside
these sources) compiles a nested schema "using the current context's pointer as the
nested node's base"; for the sub-schema `{"type": "string"}` the compiled node
checks that the instance is a string. -/
def compileTypeString (ctx : Context) (schema : Value) :
    Except ValidationError SchemaNode :=
  match schema with
  | .obj [("type", .str "string")] => .ok ⟨ctx.location, Value.isString⟩
  | _ => .error { schema_path := [], instance_path := ctx.location, inst := schema,
                  kind := .singleTypeError .object }

/-! ## The `pattern` keyword (`pattern.rs`) -/

/-- The compiled pattern validator: the original (untranslated) pattern string, the
compiled matcher, and the schema pointer of the keyword. -/
structure PatternValidator where
  original : String
  pattern : Matcher
  schema_path : JsonPointer

/-- `PatternValidator::compile`, parametric in the matcher compiler `R`: a
non-string fragment is a type error naming `string`; otherwise the original string
is looked up in the cache (a hit reuses the compiled matcher); on a miss the string
is translated and compiled, a failure being a "format" error naming `regex`, and a
success being inserted into the cache. Returns the result and the updated cache. -/
def PatternValidator.compile (R : String → Option Matcher) (cache : LruCache)
    (ctx : Context) (pattern : Value) :
    Except ValidationError PatternValidator × LruCache :=
  match pattern with
  | .str item =>
    match cache.get item with
    | (some regex, cache') =>
        (.ok { original := item, pattern := regex,
               schema_path := ctx.as_pointer_with "pattern" }, cache')
    | (none, cache') =>
        match convert_regex R item with
        | none =>
            (.error { schema_path := [], instance_path := ctx.location,
                      inst := pattern, kind := .format "regex" }, cache')
        | some regex =>
            (.ok { original := item, pattern := regex,
                   schema_path := ctx.as_pointer_with "pattern" },
             cache'.insert item regex)
  | _ => (.error { schema_path := [], instance_path := ctx.location, inst := pattern,
                   kind := .singleTypeError .string }, cache)

/-- `PatternValidator::validate`: non-strings succeed vacuously; a definite
non-match yields a "pattern" error carrying the original pattern; a matcher-internal
failure yields a "backtrack limit" error carrying the failure detail. -/
def PatternValidator.validate (v : PatternValidator) (inst : Value)
    (instance_path : JsonPointer) : List ValidationError :=
  match inst with
  | .str item =>
    match v.pattern item with
    | .ok true => []
    | .ok false => [{ schema_path := v.schema_path, instance_path := instance_path,
                      inst := inst, kind := .pattern v.original }]
    | .error e => [{ schema_path := v.schema_path, instance_path := instance_path,
                     inst := inst, kind := .backtrackLimit e }]
  | _ => []

/-- `PatternValidator::is_valid`: `is_match(...).unwrap_or(false)` on strings,
vacuously true otherwise. -/
def PatternValidator.is_valid (v : PatternValidator) (inst : Value) : Bool :=
  match inst with
  | .str item =>
    match v.pattern item with
    | .ok b => b
    | .error _ => false
  | _ => true

/-! ## The `minItems` keyword (`min_items.rs`) -/

/-- The schema-language drafts (`Draft`); only the earliest (`draft4`) matters to
`minItems` compilation. -/
inductive Draft where
  | draft4
  | draft6
  | draft7
  | draft201909
  | draft202012
  deriving DecidableEq

/-- `f64::trunc`: round toward zero. -/
def ratTrunc (q : ℚ) : ℚ :=
  if q < 0 then -(((-q).floor : ℤ) : ℚ) else ((q.floor : ℤ) : ℚ)

/-- The saturating `as u64` cast applied to a (whole-valued) float: negative values
clamp to 0, values beyond `u64::MAX` clamp to `u64::MAX`. -/
def f64ToU64 (q : ℚ) : Nat :=
  if q < 0 then 0 else min q.floor.toNat (2 ^ 64 - 1)

/-- The compiled `minItems` validator: the limit and the keyword's pointer. -/
structure MinItemsValidator where
  limit : Nat
  schema_path : JsonPointer
  deriving DecidableEq

/-- `MinItemsValidator::compile`: an unsigned integer fragment is used directly;
otherwise, under every draft except Draft 4, a float with no fractional part is
truncated (imprecise cast); everything else fails with the non-positive-integer
error. -/
def MinItemsValidator.compile (schema : Value) (schema_path : JsonPointer)
    (draft : Draft) : Except ValidationError MinItemsValidator :=
  match schema.as_u64 with
  | some limit => .ok { limit := limit, schema_path := schema_path }
  | none =>
    if draft ≠ .draft4 then
      match schema.as_f64 with
      | some limit =>
        if ratTrunc limit = limit then
          .ok { limit := f64ToU64 limit, schema_path := schema_path }
        else .error (fail_on_non_positive_integer schema schema_path)
      | none => .error (fail_on_non_positive_integer schema schema_path)
    else .error (fail_on_non_positive_integer schema schema_path)

/-- `MinItemsValidator::is_valid`: arrays must have at least `limit` elements;
non-arrays are vacuously valid. -/
def MinItemsValidator.is_valid (v : MinItemsValidator) (inst : Value) : Bool :=
  match inst with
  | .arr items => if items.length < v.limit then false else true
  | _ => true

/-- `MinItemsValidator::validate`: one "minItems" error carrying the limit and the
keyword's pointer when an array is too short; no error otherwise. -/
def MinItemsValidator.validate (v : MinItemsValidator) (inst : Value)
    (instance_path : JsonPointer) : List ValidationError :=
  match inst with
  | .arr items =>
    if items.length < v.limit then
      [{ schema_path := v.schema_path, instance_path := instance_path, inst := inst,
         kind := .minItems v.limit }]
    else []
  | _ => []

/-- The keyword-level compile entry for `minItems` (`min_items::compile`): the
keyword's pointer is the context's pointer plus `"minItems"`. -/
def min_items_compile (ctx : Context) (schema : Value) (draft : Draft) :
    Except ValidationError MinItemsValidator :=
  MinItemsValidator.compile schema (ctx.as_pointer_with "minItems") draft

/-- The rational `1.5` (the spec's fractional-limit example), in normal form so the
kernel can evaluate with it. -/
def oneAndAHalf : ℚ := ⟨3, 2, by decide, by decide⟩

/-! ### Association-list lemmas -/

theorem alookup_isSome_iff {k : String} {m : List (String × Matcher)} :
    (alookup k m).isSome ↔ k ∈ m.map Prod.fst := by
  induction m with
  | nil => simp [alookup]
  | cons p rest ih =>
    obtain ⟨k', v⟩ := p
    by_cases h : k' = k <;> simp [alookup, h, ih]
    exact fun hk => (h hk.symm).elim

theorem alookup_ainsert {k k' : String} {v : Matcher} {m : List (String × Matcher)} :
    alookup k' (ainsert k v m) = if k = k' then some v else alookup k' m := by
  induction m with
  | nil => simp [ainsert, alookup]
  | cons p rest ih =>
    obtain ⟨k₀, v₀⟩ := p
    by_cases h : k₀ = k
    · subst h
      by_cases h' : k₀ = k' <;> simp [ainsert, alookup, h', ih]
    · by_cases h' : k₀ = k'
      · subst h'
        simp only [ainsert, if_neg h, alookup, if_pos rfl]
        have : ¬ k = k₀ := fun hh => h hh.symm
        simp [this]
      · simp [ainsert, alookup, h, h', ih]

theorem keys_ainsert_of_mem {k : String} {v : Matcher} {m : List (String × Matcher)}
    (h : k ∈ m.map Prod.fst) :
    (ainsert k v m).map Prod.fst = m.map Prod.fst := by
  induction m with
  | nil => simp at h
  | cons p rest ih =>
    obtain ⟨k₀, v₀⟩ := p
    by_cases hk : k₀ = k
    · subst hk; simp [ainsert]
    · simp only [List.map_cons, List.mem_cons] at h
      rcases h with h | h

      · exact (hk h.symm).elim
      · simp [ainsert, hk, ih h]

theorem keys_ainsert_of_not_mem {k : String} {v : Matcher} {m : List (String × Matcher)}
    (h : k ∉ m.map Prod.fst) :
    (ainsert k v m).map Prod.fst = m.map Prod.fst ++ [k] := by
  induction m with
  | nil => simp [ainsert]
  | cons p rest ih =>
    obtain ⟨k₀, v₀⟩ := p
    simp only [List.map_cons, List.mem_cons, not_or] at h
    have hk : k₀ ≠ k := fun hh => h.1 hh.symm
    simp [ainsert, hk, ih h.2]

theorem keys_aerase {k : String} {m : List (String × Matcher)} :
    (aerase k m).map Prod.fst = (m.map Prod.fst).erase k := by
  induction m with
  | nil => simp [aerase]
  | cons p rest ih =>
    obtain ⟨k₀, v₀⟩ := p
    by_cases h : k₀ = k
    · subst h; simp [aerase, List.erase_cons_head]
    · have : (k₀ == k) = false := by simpa using h
      simp [aerase, h, List.erase_cons, this, ih]

theorem alookup_eq_none_of_not_mem {k : String} {m : List (String × Matcher)}
    (h : k ∉ m.map Prod.fst) : alookup k m = none := by
  have := (not_iff_not.mpr (alookup_isSome_iff (k := k) (m := m))).mpr h
  exact Option.not_isSome_iff_eq_none.mp this

theorem length_ainsert_of_mem {k : String} {v : Matcher} {m : List (String × Matcher)}
    (h : k ∈ m.map Prod.fst) : (ainsert k v m).length = m.length := by
  have := keys_ainsert_of_mem (v := v) h
  have h1 := congrArg List.length this
  simpa using h1

theorem length_ainsert_of_not_mem {k : String} {v : Matcher} {m : List (String × Matcher)}
    (h : k ∉ m.map Prod.fst) : (ainsert k v m).length = m.length + 1 := by
  have := keys_ainsert_of_not_mem (v := v) h
  have h1 := congrArg List.length this
  simpa using h1

theorem length_aerase_of_mem {k : String} {m : List (String × Matcher)}
    (h : k ∈ m.map Prod.fst) : (aerase k m).length = m.length - 1 := by
  have := keys_aerase (k := k) (m := m)
  have h1 := congrArg List.length this
  rw [List.length_map] at h1
  rw [h1, List.length_erase_of_mem h, List.length_map]

namespace LruCache

/-- `get` preserves the cache invariant. -/
theorem get_inv {c : LruCache} {k : String} (h : c.Inv) : (c.get k).2.Inv := by
  rcases hl : alookup k c.map with _ | v
  · simpa [get, hl] using h
  · have hsome : (alookup k c.map).isSome := by simp [hl]
    have hkq : k ∈ c.queue := (h.mem_iff k).mp hsome
    have hne : k ∉ c.queue.erase k := by
      intro hmem
      exact ((h.nodup_queue.mem_erase_iff).mp hmem).1 rfl
    refine ⟨?_, ?_, ?_, ?_⟩ <;> simp only [get, hl]
    · rw [List.nodup_append]
      exact ⟨h.nodup_queue.erase k, List.nodup_singleton k, by
        intro a ha hb
        rw [List.mem_singleton] at hb
        exact hne (hb ▸ ha)⟩
    · exact h.nodup_keys
    · intro k'
      by_cases hk' : k' = k
      · subst hk'; simp [hsome]
      · rw [h.mem_iff k']
        simp [List.mem_append, h.nodup_queue.mem_erase_iff, hk']
    · exact h.size_le

/-- `insert` preserves the cache invariant whenever the capacity is positive. -/
theorem insert_inv {c : LruCache} {k : String} {v : Matcher}
    (hcap : 0 < c.capacity) (h : c.Inv) : (c.insert k v).Inv := by
  by_cases hev : (decide (c.capacity ≤ c.map.length) && !(alookup k c.map).isSome) = true
  · -- eviction branch: the cache is full and the key is new
    rw [Bool.and_eq_true, decide_eq_true_eq, Bool.not_eq_true'] at hev
    obtain ⟨hlen, hknone⟩ := hev
    have hknotin : k ∉ c.map.map Prod.fst := by
      intro hmem
      rw [← alookup_isSome_iff] at hmem
      rw [hknone] at hmem
      exact Bool.false_ne_true hmem
    -- the queue is nonempty
    have hmapne : c.map ≠ [] := by
      intro hnil
      rw [hnil] at hlen
      simp at hlen
      omega
    obtain ⟨⟨k₀, v₀⟩, rest₀, hm⟩ := List.exists_cons_of_ne_nil hmapne
    have hk₀ : k₀ ∈ c.map.map Prod.fst := by rw [hm]; simp
    have hk₀q : k₀ ∈ c.queue := (h.mem_iff k₀).mp (alookup_isSome_iff.mpr hk₀)
    have hqne : c.queue ≠ [] := fun hnil => by rw [hnil] at hk₀q; simp at hk₀q
    obtain ⟨lru, rest, hq⟩ := List.exists_cons_of_ne_nil hqne
    have hlruq : lru ∈ c.queue := by rw [hq]; exact List.mem_cons_self lru rest
    have hlrum : lru ∈ c.map.map Prod.fst :=
      alookup_isSome_iff.mp ((h.mem_iff lru).mpr hlruq)
    have hlru_rest : lru ∉ rest := by
      have := h.nodup_queue
      rw [hq, List.nodup_cons] at this
      exact this.1
    have hrest_nodup : rest.Nodup := by
      have := h.nodup_queue
      rw [hq, List.nodup_cons] at this
      exact this.2
    have hkq : k ∉ c.queue := fun hmem => by
      have := (h.mem_iff k).mpr hmem
      rw [hknone] at this
      exact Bool.false_ne_true this
    have hkrest : k ∉ rest := fun hmem => hkq (by rw [hq]; exact List.mem_cons_of_mem _ hmem)
    have hevict : c.evictStep k =
        { map := aerase lru c.map, queue := rest, capacity := c.capacity } := by
      rw [evictStep, if_pos, hq]
      rw [Bool.and_eq_true, decide_eq_true_eq, Bool.not_eq_true']
      exact ⟨hlen, hknone⟩
    have hkeys1 : (aerase lru c.map).map Prod.fst = (c.map.map Prod.fst).erase lru :=
      keys_aerase
    have hknotin1 : k ∉ (aerase lru c.map).map Prod.fst := by
      rw [hkeys1]
      exact fun hmem => hknotin (List.mem_of_mem_erase hmem)
    have hold : alookup k (aerase lru c.map) = none := alookup_eq_none_of_not_mem hknotin1
    have hresult : c.insert k v =
        { map := ainsert k v (aerase lru c.map), queue := rest ++ [k],
          capacity := c.capacity } := by
      rw [insert, hevict]
      simp [hold]
    rw [hresult]
    have hkeys2 : (ainsert k v (aerase lru c.map)).map Prod.fst =
        (aerase lru c.map).map Prod.fst ++ [k] := keys_ainsert_of_not_mem hknotin1
    refine ⟨?_, ?_, ?_, ?_⟩
    · rw [List.nodup_append]
      exact ⟨hrest_nodup, List.nodup_singleton k, by
        intro a ha hb
        rw [List.mem_singleton] at hb
        exact hkrest (hb ▸ ha)⟩
    · rw [hkeys2, List.nodup_append, hkeys1]
      refine ⟨h.nodup_keys.erase lru, List.nodup_singleton k, ?_⟩
      intro a ha hb
      rw [List.mem_singleton] at hb
      subst hb
      exact hknotin (List.mem_of_mem_erase ha)
    · intro k'
      rw [alookup_isSome_iff, hkeys2, hkeys1]
      by_cases hk' : k' = k
      · subst hk'; simp
      · constructor
        · intro hmem
          rw [List.mem_append] at hmem
          rcases hmem with hmem | hmem
          · have h1 := (h.nodup_keys.mem_erase_iff).mp hmem
            have h2 : k' ∈ c.queue := (h.mem_iff k').mp (alookup_isSome_iff.mpr h1.2)
            rw [hq, List.mem_cons] at h2
            rcases h2 with h2 | h2
            · exact (h1.1 h2).elim
            · exact List.mem_append_left _ h2
          · rw [List.mem_singleton] at hmem
            exact (hk' hmem).elim
        · intro hmem
          rw [List.mem_append] at hmem
          rcases hmem with hmem | hmem
          · have hq' : k' ∈ c.queue := by rw [hq]; exact List.mem_cons_of_mem _ hmem
            have hm' : k' ∈ c.map.map Prod.fst :=
              alookup_isSome_iff.mp ((h.mem_iff k').mpr hq')
            refine List.mem_append_left _ ((h.nodup_keys.mem_erase_iff).mpr ⟨?_, hm'⟩)
            intro heq
            exact hlru_rest (heq ▸ hmem)
          · rw [List.mem_singleton] at hmem
            exact (hk' hmem).elim
    · show (ainsert k v (aerase lru c.map)).length ≤ c.capacity
      have h1 : (ainsert k v (aerase lru c.map)).length = (aerase lru c.map).length + 1 :=
        length_ainsert_of_not_mem hknotin1
      have h2 : (aerase lru c.map).length = c.map.length - 1 := length_aerase_of_mem hlrum
      have h3 : 0 < c.map.length := lt_of_lt_of_le hcap hlen
      have h4 := h.size_le
      rw [h1, h2]
      omega
  · -- no eviction: either the cache is below capacity, or the key is already present
    have hevict : c.evictStep k = c := by rw [evictStep, if_neg hev]
    rw [Bool.and_eq_true, not_and_or] at hev
    rcases hl : alookup k c.map with _ | v₀
    · -- fresh key, hence the cache must be below capacity
      have hlt : c.map.length < c.capacity := by
        rcases hev with hev | hev
        · rw [decide_eq_true_eq] at hev; omega
        · rw [hl] at hev; simp at hev
      have hknotin : k ∉ c.map.map Prod.fst := by
        intro hmem
        rw [← alookup_isSome_iff, hl] at hmem
        exact Bool.false_ne_true hmem
      have hkq : k ∉ c.queue := fun hmem => by
        have := (h.mem_iff k).mpr hmem
        rw [hl] at this
        exact Bool.false_ne_true this
      have hresult : c.insert k v =
          { map := ainsert k v c.map, queue := c.queue ++ [k], capacity := c.capacity } := by
        rw [insert, hevict]
        simp [hl]
      rw [hresult]
      have hkeys2 : (ainsert k v c.map).map Prod.fst = c.map.map Prod.fst ++ [k] :=
        keys_ainsert_of_not_mem hknotin
      refine ⟨?_, ?_, ?_, ?_⟩
      · rw [List.nodup_append]
        exact ⟨h.nodup_queue, List.nodup_singleton k, by
          intro a ha hb
          rw [List.mem_singleton] at hb
          exact hkq (hb ▸ ha)⟩
      · rw [hkeys2, List.nodup_append]
        exact ⟨h.nodup_keys, List.nodup_singleton k, by
          intro a ha hb
          rw [List.mem_singleton] at hb
          exact hknotin (hb ▸ ha)⟩
      · intro k'
        rw [alookup_isSome_iff, hkeys2]
        simp only [List.mem_append, List.mem_singleton]
        rw [← alookup_isSome_iff, h.mem_iff k']
      · show (ainsert k v c.map).length ≤ c.capacity
        rw [length_ainsert_of_not_mem hknotin]
        omega
    · -- the key is already cached: its value is replaced and it is promoted
      have hsome : (alookup k c.map).isSome := by rw [hl]; rfl
      have hkin : k ∈ c.map.map Prod.fst := alookup_isSome_iff.mp hsome
      have hkq : k ∈ c.queue := (h.mem_iff k).mp hsome
      have hresult : c.insert k v =
          { map := ainsert k v c.map, queue := c.queue.erase k ++ [k],
            capacity := c.capacity } := by
        rw [insert, hevict]
        simp [hl]
      rw [hresult]
      have hkeys2 : (ainsert k v c.map).map Prod.fst = c.map.map Prod.fst :=
        keys_ainsert_of_mem hkin
      have hne : k ∉ c.queue.erase k := by
        intro hmem
        exact ((h.nodup_queue.mem_erase_iff).mp hmem).1 rfl
      refine ⟨?_, ?_, ?_, ?_⟩
      · rw [List.nodup_append]
        exact ⟨h.nodup_queue.erase k, List.nodup_singleton k, by
          intro a ha hb
          rw [List.mem_singleton] at hb
          exact hne (hb ▸ ha)⟩
      · rw [hkeys2]; exact h.nodup_keys
      · intro k'
        rw [alookup_isSome_iff, hkeys2, ← alookup_isSome_iff]
        by_cases hk' : k' = k
        · subst hk'; simp [hsome]
        · rw [h.mem_iff k']
          simp [List.mem_append, h.nodup_queue.mem_erase_iff, hk']
      · show (ainsert k v c.map).length ≤ c.capacity
        rw [length_ainsert_of_mem hkin]
        exact h.size_le

theorem get_capacity (c : LruCache) (k : String) : (c.get k).2.capacity = c.capacity := by
  rw [get]
  rcases alookup k c.map with _ | v <;> rfl

theorem evictStep_capacity (c : LruCache) (k : String) :
    (c.evictStep k).capacity = c.capacity := by
  rw [evictStep]
  split
  · rcases c.queue with _ | ⟨lru, rest⟩ <;> rfl
  · rfl

theorem insert_capacity (c : LruCache) (k : String) (v : Matcher) :
    (c.insert k v).capacity = c.capacity := by
  rw [insert]
  simp only
  rw [evictStep_capacity]

/-- Every reachable state of the process-wide regex cache satisfies the invariant and
keeps the configured capacity 10. -/
theorem reachable_inv {c : LruCache} (h : Reachable c) : c.Inv ∧ c.capacity = 10 := by
  induction h with
  | empty =>
    refine ⟨⟨List.nodup_nil, List.nodup_nil, ?_, ?_⟩, rfl⟩
    · intro k
      simp [new, alookup]
    · simp [new]
  | get c k _ ih =>
    exact ⟨get_inv ih.1, (get_capacity c k).trans ih.2⟩
  | insert c k v _ ih =>
    refine ⟨insert_inv ?_ ih.1, (insert_capacity c k v).trans ih.2⟩
    rw [ih.2]
    omega

/-- Under the invariant, the `position(...).unwrap()` in `get` cannot panic. -/
theorem inv_not_getPanics {c : LruCache} {k : String} (h : c.Inv) : ¬ c.GetPanics k := by
  rintro ⟨hs, hq⟩
  exact hq ((h.mem_iff k).mp hs)

theorem evictStep_alookup_self {c : LruCache} {k : String} (h : alookup k c.map = none) :
    alookup k (c.evictStep k).map = none := by
  rw [evictStep]
  split
  · rcases c.queue with _ | ⟨lru, rest⟩
    · exact h
    · apply alookup_eq_none_of_not_mem
      show k ∉ (aerase lru c.map).map Prod.fst
      rw [keys_aerase]
      intro hmem
      have hm := List.mem_of_mem_erase hmem
      rw [← alookup_isSome_iff, h] at hm
      exact Bool.false_ne_true hm
  · exact h

/-- Under the invariant, the `position(...).unwrap()` in `insert` cannot panic. -/
theorem inv_not_insertPanics {c : LruCache} {k : String} (h : c.Inv) :
    ¬ c.InsertPanics k := by
  rintro ⟨hs, hq⟩
  by_cases hl : alookup k c.map = none
  · rw [evictStep_alookup_self hl] at hs
    exact Bool.false_ne_true hs
  · have hsome : (alookup k c.map).isSome := Option.isSome_iff_ne_none.mpr hl
    have hstep : c.evictStep k = c := by
      rw [evictStep, if_neg]
      simp [hsome]
    rw [hstep] at hq
    exact hq ((h.mem_iff k).mp hsome)

end LruCache

/-! ### Regex translation lemmas -/

theorem allBS_trailingRun {cs : List Char} (h : allBS cs = true) :
    trailingRun cs = cs.length := by
  induction cs with
  | nil => rfl
  | cons c rest ih =>
    rw [allBS, List.all_cons, Bool.and_eq_true] at h
    obtain ⟨hc, hrest⟩ := h
    have hc' : c = '\\' := by simpa using hc
    subst hc'
    simp [trailingRun, allBS, hrest]

theorem trailingRun_cons_bs (cs : List Char) :
    trailingRun ('\\' :: cs) = if allBS cs then cs.length + 1 else trailingRun cs := rfl

theorem trailingRun_cons_other {c : Char} (h : c ≠ '\\') (cs : List Char) :
    trailingRun (c :: cs) = trailingRun cs := by
  rw [trailingRun.eq_def]
  split
  · simp_all
  · simp_all
  · rename_i heq
    cases heq
    rfl

theorem trailingRun_append (A B : List Char) :
    trailingRun (A ++ B)
      = if allBS B then trailingRun A + B.length else trailingRun B := by
  induction A with
  | nil =>
    simp only [List.nil_append]
    split
    · rw [allBS_trailingRun (by assumption)]
      simp [trailingRun]
    · rfl
  | cons c A ih =>
    by_cases hc : c = '\\'
    · subst hc
      rw [List.cons_append, trailingRun_cons_bs, trailingRun_cons_bs]
      have hab : allBS (A ++ B) = (allBS A && allBS B) := by
        simp [allBS, List.all_append]
      rw [hab]
      by_cases hA : allBS A <;> by_cases hB : allBS B <;>
        simp [hA, hB, ih, List.length_append] <;> omega
    · rw [List.cons_append, trailingRun_cons_other hc, trailingRun_cons_other hc, ih]

theorem trailingRun_last {cs : List Char} (h : 1 ≤ trailingRun cs) :
    ∃ ds, cs = ds ++ ['\\'] := by
  induction cs with
  | nil => simp [trailingRun] at h
  | cons c rest ih =>
    by_cases hc : c = '\\'
    · subst hc
      rw [trailingRun_cons_bs] at h
      by_cases hb : allBS rest
      · rcases List.eq_nil_or_concat rest with hnil | ⟨ds, d, hcat⟩
        · subst hnil
          exact ⟨[], rfl⟩
        · subst hcat
          have hd : d = '\\' := by
            rw [allBS] at hb
            have := List.all_eq_true.mp hb d (by simp)
            simpa using this
          subst hd
          exact ⟨'\\' :: ds, by simp⟩
      · rw [if_neg hb] at h
        obtain ⟨ds, hds⟩ := ih h
        exact ⟨'\\' :: ds, by simp [hds]⟩
    · rw [trailingRun_cons_other hc] at h
      obtain ⟨ds, hds⟩ := ih h
      exact ⟨c :: ds, by simp [hds]⟩

theorem letters_facts :
    ∀ x ∈ asciiLetters, x ≠ '\\' ∧ replace_control_group x ≠ '\\' := by decide

theorem rCG_cons_other {c : Char} {rest : List Char}
    (h : ∀ (l : Char) (r1 : List Char), c = '\\' → rest = 'c' :: l :: r1 → False) :
    replaceControlGroups (c :: rest) = c :: replaceControlGroups rest := by
  rw [replaceControlGroups.eq_def]
  split
  · rename_i heq
    cases heq
  · rename_i l r1 heq
    injection heq with hc hrest
    exact (h l r1 hc hrest).elim
  · rename_i heq
    injection heq with h1 h2
    rw [h1, h2]

theorem rCG_trailing (cs : List Char) :
    (allBS cs = true → replaceControlGroups cs = cs)
    ∧ allBS (replaceControlGroups cs) = allBS cs
    ∧ trailingRun (replaceControlGroups cs) = trailingRun cs := by
  induction cs using replaceControlGroups.induct with
  | case1 => exact ⟨fun _ => rfl, rfl, rfl⟩
  | case2 l rest hl ih =>
    obtain ⟨hlbs, hrbs⟩ := letters_facts l hl
    have hred : replaceControlGroups ('\\' :: 'c' :: l :: rest)
        = replace_control_group l :: replaceControlGroups rest := by
      rw [replaceControlGroups, if_pos hl]
    rw [hred]
    refine ⟨?_, ?_, ?_⟩
    · intro h
      exfalso
      simp [allBS] at h
    · simp [allBS, hrbs, ih.2.1]
    · rw [trailingRun_cons_other hrbs, ih.2.2, trailingRun_cons_bs]
      rw [if_neg (by simp [allBS])]
      rw [trailingRun_cons_other (by decide), trailingRun_cons_other hlbs]
  | case3 l rest hl ih =>
    have hred : replaceControlGroups ('\\' :: 'c' :: l :: rest)
        = '\\' :: 'c' :: replaceControlGroups (l :: rest) := by
      rw [replaceControlGroups, if_neg hl]
    rw [hred]
    refine ⟨?_, ?_, ?_⟩
    · intro h
      exfalso
      simp [allBS] at h
    · simp [allBS, ih.2.1]
    · rw [trailingRun_cons_bs, trailingRun_cons_bs]
      rw [if_neg (by simp [allBS]), if_neg (by simp [allBS])]
      rw [trailingRun_cons_other (by decide), trailingRun_cons_other (by decide),
        ih.2.2]
  | case4 c rest hno ih =>
    rw [rCG_cons_other hno]
    refine ⟨?_, ?_, ?_⟩
    · intro h
      have h2 := h
      rw [allBS, List.all_cons, Bool.and_eq_true] at h2
      rw [ih.1 h2.2]
    · simp only [allBS, List.all_cons]
      have : (replaceControlGroups rest).all (fun c => decide (c = '\\'))
          = rest.all (fun c => decide (c = '\\')) := ih.2.1
      rw [this]
    · by_cases hc : c = '\\'
      · subst hc
        rw [trailingRun_cons_bs, trailingRun_cons_bs, ih.2.1]
        by_cases hb : allBS rest
        · rw [if_pos hb, if_pos hb, ih.1 hb]
        · rw [if_neg hb, if_neg hb, ih.2.2]
      · rw [trailingRun_cons_other hc, trailingRun_cons_other hc, ih.2.2]

theorem convertClasses_cons_other {c : Char} {rest : List Char}
    (h : c = '\\' → False) :
    convertClasses (c :: rest) = c :: convertClasses rest := by
  rw [convertClasses.eq_def]
  split
  · rename_i heq
    cases heq
  · rename_i heq
    injection heq with h1 h2
    exact (h h1).elim
  · rename_i heq
    injection heq with h1 h2
    rw [h1, h2]

theorem convertClasses_esc_other {next : Char} {rest : List Char}
    (hd : next = 'd' → False) (hD : next = 'D' → False) (hw : next = 'w' → False)
    (hW : next = 'W' → False) (hs : next = 's' → False) (hS : next = 'S' → False) :
    convertClasses ('\\' :: next :: rest) = '\\' :: next :: convertClasses rest := by
  rw [convertClasses.eq_def]
  split
  · rename_i heq
    cases heq
  · rename_i heq
    injection heq with h1 h2
    subst h2
    split
    · rename_i heq
      cases heq
    · rename_i heq
      injection heq with ha hb
      subst ha
      subst hb
      split
      · exact (hd rfl).elim
      · exact (hD rfl).elim
      · exact (hw rfl).elim
      · exact (hW rfl).elim
      · exact (hs rfl).elim
      · exact (hS rfl).elim
      · rfl
  · rename_i hbs heq
    injection heq with ha hb
    exact (hbs ha.symm).elim

theorem allBS_append (A B : List Char) : allBS (A ++ B) = (allBS A && allBS B) := by
  simp [allBS, List.all_append]

theorem allBS_cons (c : Char) (cs : List Char) :
    allBS (c :: cs) = (decide (c = '\\') && allBS cs) := by
  simp [allBS]

theorem trailing_class_step {B : List Char} {ch : Char} {rest' : List Char}
    (hB : allBS B = false) (hB0 : trailingRun B = 0) (hch : ch ≠ '\\')
    (ih : (allBS rest' = true → convertClasses rest' = rest')
      ∧ allBS (convertClasses rest') = allBS rest'
      ∧ trailingRun (convertClasses rest') = trailingRun rest') :
    (allBS ('\\' :: ch :: rest') = true →
        B ++ convertClasses rest' = '\\' :: ch :: rest')
    ∧ allBS (B ++ convertClasses rest') = allBS ('\\' :: ch :: rest')
    ∧ trailingRun (B ++ convertClasses rest')
        = trailingRun ('\\' :: ch :: rest') := by
  have hin : allBS ('\\' :: ch :: rest') = false := by
    rw [allBS_cons, allBS_cons, decide_eq_false hch]
    simp
  refine ⟨?_, ?_, ?_⟩
  · intro h
    rw [hin] at h
    cases h
  · rw [allBS_append, hB, hin]
    rfl
  · have hrhs : trailingRun ('\\' :: ch :: rest') = trailingRun rest' := by
      rw [trailingRun_cons_bs,
        if_neg (by rw [allBS_cons, decide_eq_false hch]; simp),
        trailingRun_cons_other hch]
    rw [hrhs, trailingRun_append]
    by_cases hb : allBS (convertClasses rest')
    · rw [if_pos hb]
      have hbr : allBS rest' = true := by rw [← ih.2.1]; exact hb
      rw [ih.1 hbr, hB0, allBS_trailingRun hbr]
      omega
    · rw [if_neg hb, ih.2.2]

theorem convertClasses_trailing (cs : List Char) :
    (allBS cs = true → convertClasses cs = cs)
    ∧ allBS (convertClasses cs) = allBS cs
    ∧ trailingRun (convertClasses cs) = trailingRun cs := by
  induction cs using convertClasses.induct with
  | case1 => exact ⟨fun _ => rfl, rfl, rfl⟩
  | case2 => exact ⟨fun _ => rfl, rfl, rfl⟩
  | case3 rest' ih => exact trailing_class_step (by decide) (by decide) (by decide) ih
  | case4 rest' ih => exact trailing_class_step (by decide) (by decide) (by decide) ih
  | case5 rest' ih => exact trailing_class_step (by decide) (by decide) (by decide) ih
  | case6 rest' ih => exact trailing_class_step (by decide) (by decide) (by decide) ih
  | case7 rest' ih => exact trailing_class_step (by decide) (by decide) (by decide) ih
  | case8 rest' ih => exact trailing_class_step (by decide) (by decide) (by decide) ih
  | case9 next rest' hd hD hw hW hs hS ih =>
    rw [convertClasses_esc_other hd hD hw hW hs hS]
    refine ⟨?_, ?_, ?_⟩
    · intro h
      have h2 := h
      rw [allBS_cons, allBS_cons, Bool.and_eq_true, Bool.and_eq_true] at h2
      rw [ih.1 h2.2.2]
    · rw [allBS_cons, allBS_cons, allBS_cons, allBS_cons, ih.2.1]
    · by_cases hnext : next = '\\'
      · subst hnext
        by_cases hb : allBS rest'
        · rw [ih.1 hb]
        · have hb2 : allBS rest' = false := by simpa using hb
          have hY : allBS (convertClasses rest') = false := by rw [ih.2.1]; exact hb2
          simp [trailingRun_cons_bs, allBS_cons, hY, hb2, ih.2.2]
      · simp [trailingRun_cons_bs, allBS_cons, decide_eq_false hnext,
          trailingRun_cons_other hnext, ih.2.2]
  | case10 c rest hc ih =>
    rw [convertClasses_cons_other hc]
    have hcne : c ≠ '\\' := fun h => hc h
    refine ⟨?_, ?_, ?_⟩
    · intro h
      rw [allBS_cons, decide_eq_false hcne] at h
      simp at h
    · rw [allBS_cons, allBS_cons, ih.2.1]
    · rw [trailingRun_cons_other hcne, trailingRun_cons_other hcne, ih.2.2]

theorem rtokens_cons_other {c : Char} {cs : List Char} (h : c = '\\' → False) :
    rtokens (c :: cs) = .plain c :: rtokens cs := by
  rw [rtokens.eq_def]
  split
  · rename_i heq
    cases heq
  · rename_i heq
    injection heq with h1 h2
    exact (h h1).elim
  · rename_i heq
    injection heq with h1 h2
    rw [h1, h2]

theorem renderRTok_esc_other {c : Char}
    (hd : c = 'd' → False) (hD : c = 'D' → False) (hw : c = 'w' → False)
    (hW : c = 'W' → False) (hs : c = 's' → False) (hS : c = 'S' → False) :
    renderRTok (.esc c) = ['\\', c] := by
  rw [renderRTok.eq_def]
  split <;> simp_all

theorem convertClasses_eq_render (cs : List Char) :
    convertClasses cs = ((rtokens cs).map renderRTok).join := by
  induction cs using convertClasses.induct with
  | case1 => rfl
  | case2 => rfl
  | case3 rest' ih =>
    show "[0-9]".data ++ convertClasses rest'
      = "[0-9]".data ++ ((rtokens rest').map renderRTok).join
    rw [ih]
  | case4 rest' ih =>
    show "[^0-9]".data ++ convertClasses rest'
      = "[^0-9]".data ++ ((rtokens rest').map renderRTok).join
    rw [ih]
  | case5 rest' ih =>
    show "[A-Za-z0-9_]".data ++ convertClasses rest'
      = "[A-Za-z0-9_]".data ++ ((rtokens rest').map renderRTok).join
    rw [ih]
  | case6 rest' ih =>
    show "[^A-Za-z0-9_]".data ++ convertClasses rest'
      = "[^A-Za-z0-9_]".data ++ ((rtokens rest').map renderRTok).join
    rw [ih]
  | case7 rest' ih =>
    show wsClass ++ convertClasses rest'
      = wsClass ++ ((rtokens rest').map renderRTok).join
    rw [ih]
  | case8 rest' ih =>
    show negWsClass ++ convertClasses rest'
      = negWsClass ++ ((rtokens rest').map renderRTok).join
    rw [ih]
  | case9 next rest' hd hD hw hW hs hS ih =>
    rw [convertClasses_esc_other hd hD hw hW hs hS]
    calc '\\' :: next :: convertClasses rest'
        = renderRTok (.esc next) ++ convertClasses rest' := by
          rw [renderRTok_esc_other hd hD hw hW hs hS]
          rfl
      _ = ((rtokens ('\\' :: next :: rest')).map renderRTok).join := by
          rw [ih]
          rfl
  | case10 c rest hc ih =>
    rw [convertClasses_cons_other hc, rtokens_cons_other hc, ih]
    rfl

theorem replaceControlGroups_occurrence {l : Char} (hl : l ∈ asciiLetters)
    (rest : List Char) :
    replaceControlGroups ('\\' :: 'c' :: l :: rest)
      = replace_control_group l :: replaceControlGroups rest := by
  rw [replaceControlGroups, if_pos hl]

theorem letters_code : ∀ l ∈ asciiLetters,
    (replace_control_group l).toNat + 64 = l.toUpper.toNat ∧ l.isAlpha = true := by
  decide

/-- Claim C3: the regex translation: every `\cX` control escape is replaced by the
character whose code is the uppercased letter\x27s code minus 64; the class pass is
exactly the token-by-token substitution of the six shorthand classes by their
bracket expressions, passing every other escape through unchanged; and a lone
trailing backslash is left in place, so the modelled matcher compiler rejects the
translated pattern. -/
theorem claim_C3_convert_regex :
    (∀ (l : Char), l ∈ asciiLetters → ∀ rest : List Char,
        replaceControlGroups ('\\' :: 'c' :: l :: rest)
          = replace_control_group l :: replaceControlGroups rest)
    ∧ (∀ l ∈ asciiLetters, (replace_control_group l).toNat + 64 = l.toUpper.toNat
        ∧ l.isAlpha = true)
    ∧ (∀ cs : List Char, convertClasses cs = ((rtokens cs).map renderRTok).join)
    ∧ renderRTok (.esc 'd') = "[0-9]".data
    ∧ renderRTok (.esc 'D') = "[^0-9]".data
    ∧ renderRTok (.esc 'w') = "[A-Za-z0-9_]".data
    ∧ renderRTok (.esc 'W') = "[^A-Za-z0-9_]".data
    ∧ renderRTok (.esc 's') = wsClass
    ∧ renderRTok (.esc 'S') = negWsClass
    ∧ wsClass = ['[', ' ', '\t', '\n', '\r', '\u000B', '\u000C', '\u2003',
        '\uFEFF', '\u2029', '\u00A0', ']']
    ∧ (∀ c : Char, (c = 'd' → False) → (c = 'D' → False) → (c = 'w' → False) →
        (c = 'W' → False) → (c = 's' → False) → (c = 'S' → False) →
        renderRTok (.esc c) = ['\\', c])
    ∧ (∀ p : String, trailingRun p.data % 2 = 1 →
        trailingRun (convertRegexStr p).data = trailingRun p.data
        ∧ (∃ ds, (convertRegexStr p).data = ds ++ ['\\'])
        ∧ convert_regex fancyRegexNew p = none) := by
  refine ⟨fun l hl rest => replaceControlGroups_occurrence hl rest, letters_code,
    convertClasses_eq_render, rfl, rfl, rfl, rfl, rfl, rfl, rfl,
    fun c hd hD hw hW hs hS => renderRTok_esc_other hd hD hw hW hs hS, ?_⟩
  intro p h
  have hpres : trailingRun (convertRegexStr p).data = trailingRun p.data := by
    show trailingRun (convertClasses (replaceControlGroups p.data)) = _
    rw [(convertClasses_trailing _).2.2, (rCG_trailing _).2.2]
  refine ⟨hpres, ?_, ?_⟩
  · apply trailingRun_last
    rw [hpres]
    omega
  · rw [convert_regex, fancyRegexNew, if_pos]
    rw [hpres]
    exact h

/-- Witness for C3 at the control escape `\ca`, the pass-through escape `\x`, and
the dangling pattern `"a\"`. -/
theorem claim_C3_convert_regex_witness :
    replaceControlGroups ['\\', 'c', 'a']
        = replace_control_group 'a' :: replaceControlGroups []
    ∧ renderRTok (.esc 'x') = ['\\', 'x']
    ∧ trailingRun "a\\".data % 2 = 1
    ∧ trailingRun (convertRegexStr "a\\").data = trailingRun "a\\".data
    ∧ (∃ ds, (convertRegexStr "a\\").data = ds ++ ['\\'])
    ∧ convert_regex fancyRegexNew "a\\" = none := by
  have h := claim_C3_convert_regex.2.2.2.2.2.2.2.2.2.2.2 "a\\" (by decide)
  exact ⟨claim_C3_convert_regex.1 'a' (by decide) [],
    claim_C3_convert_regex.2.2.2.2.2.2.2.2.2.2.1 'x' (by decide) (by decide)
      (by decide) (by decide) (by decide) (by decide),
    by decide, h.1, h.2.1, h.2.2⟩

/-! ## Claim theorems -/

/-- Claim C1: For every compiled validator (negation, pattern, minItems) and every
instance `I`, `is_valid I` returns `true` if and only if `validate I path` produces
no error: the boolean mode and the error-sequence mode never disagree. -/
theorem claim_C1_modes_never_disagree :
    (∀ (v : NotValidator) (inst : Value) (loc : JsonPointer),
        v.is_valid inst = true ↔ v.validate inst loc = .ok ())
    ∧ (∀ (v : PatternValidator) (inst : Value) (loc : JsonPointer),
        v.is_valid inst = true ↔ v.validate inst loc = [])
    ∧ (∀ (v : MinItemsValidator) (inst : Value) (loc : JsonPointer),
        v.is_valid inst = true ↔ v.validate inst loc = []) := by
  refine ⟨?_, ?_, ?_⟩
  · intro v inst loc
    rw [NotValidator.validate]
    by_cases h : v.is_valid inst = true
    · simp [h]
    · simp [h]
  · intro v inst loc
    cases inst <;> simp only [PatternValidator.is_valid, PatternValidator.validate]
    case str s =>
      cases hp : v.pattern s with
      | ok b => cases b <;> simp
      | error e => simp
  · intro v inst loc
    cases inst <;> simp only [MinItemsValidator.is_valid, MinItemsValidator.validate]
    case arr items =>
      by_cases h : items.length < v.limit <;> simp [h]

/-- Claim C4: For every compilable sub-schema `T` (one the recursive compiler turns
into a node) and every instance `I`, the negation validator built from `T` satisfies
`is_valid(not(T), I) = !is_valid(T, I)`. -/
theorem claim_C4_negation_is_complement
    (compileFn : Context → Value → Except ValidationError SchemaNode)
    (ctx : Context) (T : Value) (node : SchemaNode) (nv : NotValidator)
    (hT : compileFn (ctx.new_at_location "not") T = .ok node)
    (hc : NotValidator.compile compileFn ctx T = .ok nv) :
    ∀ inst : Value, nv.is_valid inst = !(node.is_valid inst) := by
  intro inst
  rw [NotValidator.compile] at hc
  simp only [hT] at hc
  cases hc
  rfl

/-- Witness for C4 at the concrete sub-schema `{"type": "string"}` and instance
`"foo"`. -/
theorem claim_C4_negation_is_complement_witness :
    (NotValidator.mk typeStringSchema ⟨["not"], Value.isString⟩).is_valid (.str "foo")
      = !((SchemaNode.mk ["not"] Value.isString).is_valid (.str "foo")) :=
  claim_C4_negation_is_complement compileTypeString ⟨[]⟩ typeStringSchema
    ⟨["not"], Value.isString⟩ (NotValidator.mk typeStringSchema ⟨["not"], Value.isString⟩)
    rfl rfl (.str "foo")

/-- Claim C5: Whenever the negated sub-schema matches the instance, the negation
validator's `validate` produces exactly one error of kind "negation violated",
carrying the nested node's own schema pointer, the caller-supplied instance pointer,
the instance value and the retained original operand; in particular for schema
`{"not": {"type": "string"}}` and instance `"foo"` the single error's schema pointer
is `/not`. -/
theorem claim_C5_negation_error_payload :
    (∀ (v : NotValidator) (inst : Value) (loc : JsonPointer),
        v.node.is_valid inst = true →
        v.validate inst loc =
          .error { schema_path := v.node.location, instance_path := loc,
                   inst := inst, kind := .not v.original })
    ∧ (NotValidator.compile compileTypeString ⟨[]⟩ typeStringSchema).map
        (fun v => v.validate (.str "foo") [])
      = .ok (.error { schema_path := ["not"], instance_path := [],
                        inst := .str "foo", kind := .not typeStringSchema }) := by
  constructor
  · intro v inst loc h
    have hv : v.is_valid inst = false := by
      rw [NotValidator.is_valid, h]
      rfl
    rw [NotValidator.validate, hv]
    simp
  · rfl

/-- Witness for C5: the compiled `{"not": {"type": "string"}}` validator rejecting
`"foo"` with schema pointer `/not`. -/
theorem claim_C5_negation_error_payload_witness :
    (NotValidator.mk typeStringSchema ⟨["not"], Value.isString⟩).validate (.str "foo") []
      = .error { schema_path := ["not"], instance_path := [], inst := .str "foo",
                   kind := .not typeStringSchema } :=
  claim_C5_negation_error_payload.1
    (NotValidator.mk typeStringSchema ⟨["not"], Value.isString⟩) (.str "foo") [] rfl

/-- Claim C7: Pattern validator runtime: non-string instances succeed vacuously in both
modes; a definite non-match produces a "pattern mismatch" error carrying the original
untranslated pattern; a matcher-internal failure makes `is_valid` return `false`
while `validate` emits a distinct "backtrack limit exceeded" error carrying the
underlying failure detail. -/
theorem claim_C7_pattern_runtime :
    (∀ (v : PatternValidator) (inst : Value) (loc : JsonPointer),
        inst.isString = false →
        v.is_valid inst = true ∧ v.validate inst loc = [])
    ∧ (∀ (v : PatternValidator) (s : String) (loc : JsonPointer),
        v.pattern s = .ok false →
        v.validate (.str s) loc =
          [{ schema_path := v.schema_path, instance_path := loc,
             inst := .str s, kind := .pattern v.original }])
    ∧ (∀ (v : PatternValidator) (s : String) (loc : JsonPointer) (e : String),
        v.pattern s = .error e →
        v.is_valid (.str s) = false ∧
        v.validate (.str s) loc =
          [{ schema_path := v.schema_path, instance_path := loc,
             inst := .str s, kind := .backtrackLimit e }]) := by
  refine ⟨?_, ?_, ?_⟩
  · intro v inst loc h
    cases inst <;> simp [PatternValidator.is_valid, PatternValidator.validate]
    case str s => simp [Value.isString] at h
  · intro v s loc h
    simp [PatternValidator.validate, h]
  · intro v s loc e h
    simp [PatternValidator.is_valid, PatternValidator.validate, h]

/-- Witness for C7 with concrete matchers: one always reporting a non-match, one
always failing with a backtrack-limit detail, and a non-string instance. -/
theorem claim_C7_pattern_runtime_witness :
    ((PatternValidator.mk "^f" (fun _ => Except.ok false) ["pattern"]).is_valid
        (.bool true) = true
      ∧ (PatternValidator.mk "^f" (fun _ => Except.ok false) ["pattern"]).validate
          (.bool true) [] = [])
    ∧ (PatternValidator.mk "^f" (fun _ => Except.ok false) ["pattern"]).validate
        (.str "b") []
        = [{ schema_path := ["pattern"], instance_path := [], inst := .str "b",
               kind := .pattern "^f" }]
    ∧ ((PatternValidator.mk "^f" (fun _ => Except.error "backtrack limit exceeded")
          ["pattern"]).is_valid (.str "b") = false
      ∧ (PatternValidator.mk "^f" (fun _ => Except.error "backtrack limit exceeded")
          ["pattern"]).validate (.str "b") []
        = [{ schema_path := ["pattern"], instance_path := [], inst := .str "b",
               kind := .backtrackLimit "backtrack limit exceeded" }]) :=
  ⟨claim_C7_pattern_runtime.1 _ (.bool true) [] rfl,
   claim_C7_pattern_runtime.2.1 _ "b" [] rfl,
   claim_C7_pattern_runtime.2.2 _ "b" [] "backtrack limit exceeded" rfl⟩

/-- Claim C9: `minItems` runtime: non-arrays succeed vacuously in both modes; an array
is valid iff its element count is at least the limit, and otherwise `validate` emits
one "below minimum size" error carrying the limit and the keyword's pointer; in
particular schema `{"minItems": 1}` and instance `[]` give one error with schema
pointer `/minItems`. -/
theorem claim_C9_min_items_runtime :
    (∀ (v : MinItemsValidator) (inst : Value) (loc : JsonPointer),
        inst.isArray = false →
        v.is_valid inst = true ∧ v.validate inst loc = [])
    ∧ (∀ (v : MinItemsValidator) (items : List Value),
        v.is_valid (.arr items) = true ↔ v.limit ≤ items.length)
    ∧ (∀ (v : MinItemsValidator) (items : List Value) (loc : JsonPointer),
        items.length < v.limit →
        v.validate (.arr items) loc =
          [{ schema_path := v.schema_path, instance_path := loc,
             inst := .arr items, kind := .minItems v.limit }])
    ∧ (∀ (v : MinItemsValidator) (items : List Value) (loc : JsonPointer),
        v.limit ≤ items.length → v.validate (.arr items) loc = [])
    ∧ min_items_compile ⟨[]⟩ (.num (.posInt 1)) .draft7 = .ok ⟨1, ["minItems"]⟩
    ∧ (MinItemsValidator.mk 1 ["minItems"]).validate (.arr []) []
        = [{ schema_path := ["minItems"], instance_path := [], inst := .arr [],
               kind := .minItems 1 }] := by
  refine ⟨?_, ?_, ?_, ?_, rfl, rfl⟩
  · intro v inst loc h
    cases inst <;> simp [MinItemsValidator.is_valid, MinItemsValidator.validate]
    case arr items => simp [Value.isArray] at h
  · intro v items
    rw [MinItemsValidator.is_valid]
    by_cases h : items.length < v.limit <;> simp [h] <;> omega
  · intro v items loc h
    simp [MinItemsValidator.validate, h]
  · intro v items loc h
    rw [MinItemsValidator.validate]
    simp only [if_neg (by omega : ¬ items.length < v.limit)]

/-- Witness for C9 at schema `{"minItems": 2}` with a non-array, a short array and a
long-enough array. -/
theorem claim_C9_min_items_runtime_witness :
    ((MinItemsValidator.mk 2 ["minItems"]).is_valid .null = true
      ∧ (MinItemsValidator.mk 2 ["minItems"]).validate .null [] = [])
    ∧ ((MinItemsValidator.mk 2 ["minItems"]).is_valid (.arr [.null]) = true ↔
        (MinItemsValidator.mk 2 ["minItems"]).limit ≤ [Value.null].length)
    ∧ (MinItemsValidator.mk 2 ["minItems"]).validate (.arr [.null]) []
        = [{ schema_path := ["minItems"], instance_path := [], inst := .arr [.null],
               kind := .minItems 2 }]
    ∧ (MinItemsValidator.mk 2 ["minItems"]).validate (.arr [.null, .null]) [] = [] :=
  ⟨claim_C9_min_items_runtime.1 _ .null [] rfl,
   claim_C9_min_items_runtime.2.1 _ [.null],
   claim_C9_min_items_runtime.2.2.1 _ [.null] [] (by decide),
   claim_C9_min_items_runtime.2.2.2.1 _ [.null, .null] [] (by decide)⟩

/-- Claim C6 (amended): `minItems` compilation: a non-negative integer fragment
compiles to that limit directly; under every draft except the earliest, a float with
no fractional part compiles to its (saturating-cast) whole-number value, so `1.0`
compiles exactly like `1`; a float with a fractional remainder fails; any whole
float under the earliest draft fails; and a fragment that is not a number fails —
but (contrary to the claim's "every other fragment") a negative integer fragment
also compiles under the lenient drafts, through the float path, see the
counterexample. -/
theorem claim_C6_min_items_compile :
    (∀ (n : Nat) (path : JsonPointer) (draft : Draft),
        MinItemsValidator.compile (.num (.posInt n)) path draft = .ok ⟨n, path⟩)
    ∧ (∀ (q : ℚ) (path : JsonPointer) (draft : Draft), draft ≠ .draft4 →
        ratTrunc q = q →
        MinItemsValidator.compile (.num (.float q)) path draft
          = .ok ⟨f64ToU64 q, path⟩)
    ∧ (∀ (q : ℚ) (path : JsonPointer) (draft : Draft), ratTrunc q ≠ q →
        MinItemsValidator.compile (.num (.float q)) path draft
          = .error (fail_on_non_positive_integer (.num (.float q)) path))
    ∧ (∀ (q : ℚ) (path : JsonPointer),
        MinItemsValidator.compile (.num (.float q)) path .draft4
          = .error (fail_on_non_positive_integer (.num (.float q)) path))
    ∧ (∀ (frag : Value) (path : JsonPointer) (draft : Draft), frag.as_u64 = none →
        frag.as_f64 = none →
        MinItemsValidator.compile frag path draft
          = .error (fail_on_non_positive_integer frag path))
    ∧ (∀ path : JsonPointer,
        MinItemsValidator.compile (.num (.float 1)) path .draft7
          = MinItemsValidator.compile (.num (.posInt 1)) path .draft7)
    ∧ MinItemsValidator.compile (.num (.float oneAndAHalf)) ["minItems"] .draft7
        = .error (fail_on_non_positive_integer (.num (.float oneAndAHalf))
            ["minItems"]) := by
  refine ⟨fun n path draft => rfl, ?_, ?_, ?_, ?_, fun path => rfl, ?_⟩
  · intro q path draft hd ht
    rw [MinItemsValidator.compile]
    simp only [Value.as_u64, Value.as_f64]
    rw [if_pos hd, if_pos ht]
  · intro q path draft ht
    rw [MinItemsValidator.compile]
    simp only [Value.as_u64, Value.as_f64]
    by_cases hd : draft = Draft.draft4
    · rw [if_neg (by simp [hd])]
    · rw [if_pos hd, if_neg ht]
  · intro q path
    rw [MinItemsValidator.compile]
    simp only [Value.as_u64, Value.as_f64]
    rw [if_neg (by simp)]
  · intro frag path draft h1 h2
    rw [MinItemsValidator.compile]
    rw [h1, h2]
    by_cases hd : draft = Draft.draft4
    · rw [if_neg (by simp [hd])]
    · rw [if_pos hd]
  · rw [MinItemsValidator.compile]
    simp only [Value.as_u64, Value.as_f64]
    rw [if_pos (by decide), if_neg (by decide)]

/-- The C6 counterexample: under Draft 7 the negative integer fragment `-2` is not a
compile-time error — it compiles through the float leniency, the saturating cast
producing limit 0. -/
theorem claim_C6_min_items_compile_counterexample :
    MinItemsValidator.compile (.num (.negInt (-2))) ["minItems"] .draft7
      = .ok ⟨0, ["minItems"]⟩ := rfl

/-- Witness for C6: the float leniency at `2.0` under Draft 6, the fractional
failure at `1.5`, and a string fragment failing under any draft. -/
theorem claim_C6_min_items_compile_witness :
    MinItemsValidator.compile (.num (.float 2)) ["minItems"] .draft6
        = .ok ⟨f64ToU64 2, ["minItems"]⟩
    ∧ MinItemsValidator.compile (.num (.float oneAndAHalf)) ["minItems"] .draft6
        = .error (fail_on_non_positive_integer (.num (.float oneAndAHalf))
            ["minItems"])
    ∧ MinItemsValidator.compile (.str "3") ["minItems"] .draft7
        = .error (fail_on_non_positive_integer (.str "3") ["minItems"]) :=
  ⟨claim_C6_min_items_compile.2.1 2 ["minItems"] .draft6 (by decide) (by decide),
   claim_C6_min_items_compile.2.2.1 oneAndAHalf ["minItems"] .draft6 (by decide),
   claim_C6_min_items_compile.2.2.2.2.1 (.str "3") ["minItems"] .draft7 rfl rfl⟩

/-- Claim C8 (amended): Pattern compilation fails exactly on the two compile-time
error cases: a non-string fragment is a type error naming `string` as the expected
kind; a string fragment not already cached whose translated form the matcher
compiler rejects is a "format" error carrying the format name `regex` (the code
does not name the keyword `pattern`: see the counterexample); every fragment whose
translation compiles — or that is found in the cache — succeeds. -/
theorem claim_C8_pattern_compile :
    (∀ (R : String → Option Matcher) (cache : LruCache) (ctx : Context)
        (frag : Value), frag.isString = false →
        (PatternValidator.compile R cache ctx frag).1
          = .error { schema_path := [], instance_path := ctx.location, inst := frag,
                     kind := .singleTypeError .string })
    ∧ (∀ (R : String → Option Matcher) (cache : LruCache) (ctx : Context)
        (s : String), alookup s cache.map = none → R (convertRegexStr s) = none →
        (PatternValidator.compile R cache ctx (.str s)).1
          = .error { schema_path := [], instance_path := ctx.location,
                     inst := .str s, kind := .format "regex" })
    ∧ (∀ (R : String → Option Matcher) (cache : LruCache) (ctx : Context)
        (s : String) (m : Matcher), R (convertRegexStr s) = some m →
        (PatternValidator.compile R cache ctx (.str s)).1
          = .ok { original := s, pattern := (cache.get s).1.getD m,
                  schema_path := ctx.as_pointer_with "pattern" })
    ∧ (∀ (R : String → Option Matcher) (cache : LruCache) (ctx : Context)
        (s : String) (m : Matcher), alookup s cache.map = some m →
        (PatternValidator.compile R cache ctx (.str s)).1
          = .ok { original := s, pattern := m,
                  schema_path := ctx.as_pointer_with "pattern" }) := by
  refine ⟨?_, ?_, ?_, ?_⟩
  · intro R cache ctx frag h
    cases frag <;> simp [PatternValidator.compile]
    case str s => simp [Value.isString] at h
  · intro R cache ctx s h1 h2
    rw [PatternValidator.compile]
    simp only [LruCache.get, h1]
    rw [convert_regex, h2]
  · intro R cache ctx s m h
    rw [PatternValidator.compile]
    rcases hl : alookup s cache.map with _ | m'
    · simp only [LruCache.get, hl]
      rw [convert_regex, h]
      simp [LruCache.get, hl]
    · simp [LruCache.get, hl]
  · intro R cache ctx s m h
    rw [PatternValidator.compile]
    simp only [LruCache.get, h]

/-- The C8 counterexample: the "format" compile error does not name the keyword
(`pattern`); it carries the format name `regex` (and, incidentally, an empty schema
path). -/
theorem claim_C8_pattern_compile_counterexample :
    (PatternValidator.compile (fun _ => none) (LruCache.new 10) ⟨[]⟩ (.str "(")).1
      = .error { schema_path := [], instance_path := [], inst := .str "(",
                 kind := .format "regex" }
    ∧ "regex" ≠ "pattern" := ⟨rfl, by decide⟩

/-- Witness for C8: a non-string fragment, a rejecting matcher compiler on an empty
cache, an accepting matcher compiler, and a cache hit. -/
theorem claim_C8_pattern_compile_witness :
    (PatternValidator.compile (fun _ => none) (LruCache.new 10) ⟨[]⟩ .null).1
        = .error { schema_path := [], instance_path := [], inst := .null,
                   kind := .singleTypeError .string }
    ∧ (PatternValidator.compile (fun _ => none) (LruCache.new 10) ⟨[]⟩
          (.str "^f")).1
        = .error { schema_path := [], instance_path := [], inst := .str "^f",
                   kind := .format "regex" }
    ∧ (PatternValidator.compile (fun _ => some reOk) (LruCache.new 10) ⟨[]⟩
          (.str "^f")).1
        = .ok { original := "^f",
                pattern := (((LruCache.new 10).get "^f").1).getD reOk,
                schema_path := Context.as_pointer_with ⟨[]⟩ "pattern" }
    ∧ (PatternValidator.compile (fun _ => none)
          ((LruCache.new 10).insert "^f" reOk) ⟨[]⟩ (.str "^f")).1
        = .ok { original := "^f", pattern := reOk,
                schema_path := Context.as_pointer_with ⟨[]⟩ "pattern" } :=
  ⟨claim_C8_pattern_compile.1 (fun _ => none) (LruCache.new 10) ⟨[]⟩ .null rfl,
   claim_C8_pattern_compile.2.1 (fun _ => none) (LruCache.new 10) ⟨[]⟩ "^f" rfl rfl,
   claim_C8_pattern_compile.2.2.1 (fun _ => some reOk) (LruCache.new 10) ⟨[]⟩ "^f"
     reOk rfl,
   claim_C8_pattern_compile.2.2.2 (fun _ => none)
     ((LruCache.new 10).insert "^f" reOk) ⟨[]⟩ "^f" reOk rfl⟩

/-- Claim C2: The capacity-10 regex cache: a lookup hit moves the entry to the
most-recently-used (back) position; inserting a new key into a full cache first
evicts the least-recently-used entry (the queue front); hence after inserting the 11
distinct patterns `p1 .. p11` in order, `p1` is absent and `p2 .. p11` are present;
and for every `i ∈ {1..10}`, re-accessing `p_i` before inserting `p11` promotes it so
that it survives while the next-oldest entry is evicted instead. -/
theorem claim_C2_lru_cache_behaviour :
    (∀ (c : LruCache) (k : String) (v : Matcher), alookup k c.map = some v →
        c.get k = (some v, { c with queue := c.queue.erase k ++ [k] }))
    ∧ (∀ (c : LruCache) (k : String) (v : Matcher) (lru : String)
        (rest : List String),
        c.capacity ≤ c.map.length → alookup k c.map = none → c.queue = lru :: rest →
        c.insert k v = { map := ainsert k v (aerase lru c.map), queue := rest ++ [k],
                         capacity := c.capacity })
    ∧ alookup "p1" (fillCache 11).map = none
    ∧ (∀ i ∈ List.range' 2 10, (alookup (pat i) (fillCache 11).map).isSome = true)
    ∧ (∀ i ∈ List.range' 1 10,
        (alookup (pat i) (promoteScenario i).map).isSome = true
        ∧ (alookup (pat (if i = 1 then 2 else 1)) (promoteScenario i).map).isSome
            = false) := by
  refine ⟨?_, ?_, rfl, by decide, by decide⟩
  · intro c k v h
    rw [LruCache.get, h]
  · intro c k v lru rest hlen hnone hq
    have hev : c.evictStep k =
        { c with map := aerase lru c.map, queue := rest } := by
      rw [LruCache.evictStep, if_pos, hq]
      simp [hlen, hnone]
    have hold : alookup k (aerase lru c.map) = none := by
      apply alookup_eq_none_of_not_mem
      show k ∉ (aerase lru c.map).map Prod.fst
      rw [keys_aerase]
      intro hmem
      have hm := List.mem_of_mem_erase hmem
      rw [← alookup_isSome_iff, hnone] at hm
      exact Bool.false_ne_true hm
    rw [LruCache.insert, hev]
    simp [hold]

/-- Witness for C2: the hit-promotion law at a one-entry cache and the full-cache
eviction law at a full one-entry cache. -/
theorem claim_C2_lru_cache_behaviour_witness :
    ((LruCache.new 10).insert "p1" reOk).get "p1"
        = (some reOk, { (LruCache.new 10).insert "p1" reOk with
                        queue := (((LruCache.new 10).insert "p1" reOk).queue.erase
                          "p1") ++ ["p1"] })
    ∧ ((LruCache.new 1).insert "a" reOk).insert "b" reOk
        = { map := ainsert "b" reOk (aerase "a" ((LruCache.new 1).insert "a" reOk).map),
            queue := [] ++ ["b"],
            capacity := ((LruCache.new 1).insert "a" reOk).capacity } :=
  ⟨claim_C2_lru_cache_behaviour.1 ((LruCache.new 10).insert "p1" reOk) "p1" reOk rfl,
   claim_C2_lru_cache_behaviour.2.1 ((LruCache.new 1).insert "a" reOk) "b" reOk "a"
     [] (by decide) rfl rfl⟩

/-- Claim C10: After every sequence of `get` and `insert` operations starting from the
empty capacity-10 cache, the recency queue contains exactly the map's keys with no
duplicates and the map holds at most `capacity` entries; consequently the
position-lookup-followed-by-unwrap in both `get` and `insert` can never panic. -/
theorem claim_C10_cache_invariant {c : LruCache} (h : LruCache.Reachable c) :
    c.Inv ∧ ∀ k : String, ¬ c.GetPanics k ∧ ¬ c.InsertPanics k := by
  obtain ⟨hinv, -⟩ := LruCache.reachable_inv h
  exact ⟨hinv, fun k =>
    ⟨LruCache.inv_not_getPanics hinv, LruCache.inv_not_insertPanics hinv⟩⟩

/-- Witness for C10 at a reachable state: two inserts and a get from empty. -/
theorem claim_C10_cache_invariant_witness :
    ((((LruCache.new 10).insert "p1" reOk).insert "p2" reOk).get "p1").2.Inv
    ∧ ∀ k : String,
        ¬ ((((LruCache.new 10).insert "p1" reOk).insert "p2" reOk).get
            "p1").2.GetPanics k
        ∧ ¬ ((((LruCache.new 10).insert "p1" reOk).insert "p2" reOk).get
            "p1").2.InsertPanics k :=
  claim_C10_cache_invariant
    (LruCache.Reachable.get _ "p1"
      (LruCache.Reachable.insert _ "p2" reOk
        (LruCache.Reachable.insert _ "p1" reOk LruCache.Reachable.empty)))

end JsonSchema
